import Mathlib

set_option maxRecDepth 65536

set_option maxHeartbeats 1000000

/-!
Shallow embedding of the board100 puzzle library (`src/lib.rs`).

Rust `u8` quantities are modelled as `Nat` together with an explicit
`% 256` at every place the source performs an `as u8` cast, and the
`i32` intermediate arithmetic of `valid_move` is modelled with `Int`.
Fallible methods return `Except BoardError Board`.  The Rust methods
`start_at`, `next_move` and `set_value` take `&mut self`; the source
mutates only a clone of the receiver, so each is modelled as a function
returning a pair `(result, receiver after the call)` whose second
component records the final state of `self`.
-/

/-- Distance from source for horizontal or vertical moves (`HV_OFFSET`). -/
def HV_OFFSET : Int := 3

/-- Distance from source for diagonal moves (`DIAG_OFFSET`). -/
def DIAG_OFFSET : Int := 2

/-- Direction represents the direction of a move from the source location. -/
inductive Direction where
  | Down
  | DownRight
  | Right
  | UpRight
  | Up
  | UpLeft
  | Left
  | DownLeft
deriving DecidableEq

/-- The fixed order of `Direction::iterator()` (the static `DIRECTIONS` table). -/
def Direction.iterator : List Direction :=
  [Direction.Down, Direction.DownRight, Direction.Right, Direction.UpRight,
   Direction.Up, Direction.UpLeft, Direction.Left, Direction.DownLeft]

/-- Error value of board operations.  The Rust `BoardError` wraps a formatted
message string; each distinct message format in the source is one constructor
here, carrying the numbers interpolated into that message. -/
inductive BoardError where
  /-- Message of `next_move` on an unstarted board. -/
  | notStarted
  /-- Message of `next_move` when `valid_move` yields no target. -/
  | invalidDirection (dir : Direction)
  /-- Message of `set_value` check 1: coordinates out of range. -/
  | outOfRange (x y size : Nat)
  /-- Message of `set_value` check 2: value below 1. -/
  | cannotClear (x y : Nat)
  /-- Message of `set_value` check 3: value already used. -/
  | valueUsed (x y value : Nat)
  /-- Message of `set_value` check 4: value larger than the cell count. -/
  | valueTooLarge (x y value cells : Nat)
  /-- Message of `set_value` check 5: cell already holds a nonzero value. -/
  | cellOccupied (x y : Nat)
deriving DecidableEq

instance {ε α : Type} [DecidableEq ε] [DecidableEq α] : DecidableEq (Except ε α) :=
  fun a b =>
    match a, b with
    | Except.ok u, Except.ok v =>
      if h : u = v then isTrue (by rw [h]) else
        isFalse (by intro hc; cases hc; exact h rfl)
    | Except.error u, Except.error v =>
      if h : u = v then isTrue (by rw [h]) else
        isFalse (by intro hc; cases hc; exact h rfl)
    | Except.ok _, Except.error _ => isFalse (by intro hc; cases hc)
    | Except.error _, Except.ok _ => isFalse (by intro hc; cases hc)

/-- Board represents the puzzle board (`struct Board`).  `values` holds the
`u8` cell labels (modelled as `Nat`, kept below 256 by the operations),
indexed by `y * size + x`; `(x, y)` is the location of the last cell set. -/
structure Board where
  size : Nat
  cells : Nat
  values : List Nat
  x : Nat
  y : Nat
deriving DecidableEq

namespace Board

/-- Create a new board with the dimensions `size` x `size` (`Board::new`).
The two reassignments of the mutable `size` argument become shadowing lets. -/
def new (size : Nat) : Board :=
  let size := if size < 5 then 5 else size
  let size := if size > 16 then 16 else size
  { size := size
    cells := size * size
    values := List.replicate (size * size) 0
    x := 0
    y := 0 }

/-- Return the value at the given location (`value_at`): the flat `Vec` index
`y * size + x`.  Every internal call site is bounds-checked before calling,
so the in-range behaviour is modelled totally with `getD`; `value_at?` below
additionally models the aborting out-of-range read. -/
def value_at (self : Board) (x y : Nat) : Nat :=
  self.values.getD (y * self.size + x) 0

/-- The same flat read `self.values[y * self.size + x]` with the abort of an
out-of-range `Vec` index modelled as `none`. -/
def value_at? (self : Board) (x y : Nat) : Option Nat :=
  self.values.get? (y * self.size + x)

/-- Return `true` if the board has been started (`is_started`). -/
def is_started (self : Board) : Bool :=
  decide (self.value_at self.x self.y > 0)

/-- The score is simply the highest value on the board (`score`):
`values.iter().cloned().fold(0, u8::max) as usize`. -/
def score (self : Board) : Nat :=
  self.values.foldl Nat.max 0

/-- Determines if a move in the given direction is valid (`valid_move`).
The source casts `x`, `y`, `size` to `i32` before applying the offset. -/
def valid_move (self : Board) (dir : Direction) : Option (Nat × Nat) :=
  let x : Int := self.x
  let y : Int := self.y
  let size : Int := self.size
  if self.is_started then
    let t : Int × Int :=
      match dir with
      | Direction.Down => (x, y + HV_OFFSET)
      | Direction.DownRight => (x + DIAG_OFFSET, y + DIAG_OFFSET)
      | Direction.Right => (x + HV_OFFSET, y)
      | Direction.UpRight => (x + DIAG_OFFSET, y - DIAG_OFFSET)
      | Direction.Up => (x, y - HV_OFFSET)
      | Direction.UpLeft => (x - DIAG_OFFSET, y - DIAG_OFFSET)
      | Direction.Left => (x - HV_OFFSET, y)
      | Direction.DownLeft => (x - DIAG_OFFSET, y + DIAG_OFFSET)
    if t.1 ≥ 0 ∧ t.2 ≥ 0 ∧ t.1 < size ∧ t.2 < size ∧
        self.value_at t.1.toNat t.2.toNat = 0 then
      some (t.1.toNat, t.2.toNat)
    else
      none
  else
    none

/-- Return a list of all possible moves from the current location
(`possible_moves`): the directions, in iterator order, whose `valid_move`
is `Some`. -/
def possible_moves (self : Board) : List Direction :=
  Direction.iterator.filter fun d => (self.valid_move d).isSome

/-- Return true if the board is complete (`is_won`): the value of the last
move equals `self.cells as u8`, and no cell is empty. -/
def is_won (self : Board) : Bool :=
  self.value_at self.x self.y == self.cells % 256 && !(self.values.contains 0)

/-- Return `true` if there are no possible moves on a started board
(`is_blocked`). -/
def is_blocked (self : Board) : Bool :=
  self.is_started && self.possible_moves.length == 0

/-- Set the value of a location on the board (`set_value`).  The five checks
appear in source order; the comparisons of check 3 and check 4 happen at
`u8` width in the source (`self.score() as u8`, `self.cells as u8`), hence
the `% 256`.  On success the source clones `self`, updates the clone and
returns it; the receiver (second pair component) is never written. -/
def set_value (self : Board) (x y value : Nat) :
    Except BoardError Board × Board :=
  if x ≥ self.size ∨ y ≥ self.size then
    (Except.error (BoardError.outOfRange x y self.size), self)
  else if value < 1 then
    (Except.error (BoardError.cannotClear x y), self)
  else if value ≤ self.score % 256 then
    (Except.error (BoardError.valueUsed x y value), self)
  else if value > self.cells % 256 then
    (Except.error (BoardError.valueTooLarge x y value self.cells), self)
  else if self.value_at x y ≠ 0 then
    (Except.error (BoardError.cellOccupied x y), self)
  else
    (Except.ok { self with
        x := x
        y := y
        values := self.values.set (y * self.size + x) value }, self)

/-- Start the puzzle by placing a 1 in the given location (`start_at`). -/
def start_at (self : Board) (x y : Nat) : Except BoardError Board × Board :=
  self.set_value x y 1

/-- Make the next move on the board in a given direction (`next_move`).
The placed value is the `u8` sum `self.value_at(self.x, self.y) + 1`. -/
def next_move (self : Board) (dir : Direction) :
    Except BoardError Board × Board :=
  if !self.is_started then
    (Except.error BoardError.notStarted, self)
  else
    match self.valid_move dir with
    | some (x, y) =>
        self.set_value x y ((self.value_at self.x self.y + 1) % 256)
    | none => (Except.error (BoardError.invalidDirection dir), self)

end Board

/-- The boards reachable from `Board::new s` by successful `start_at` and
`next_move` calls (each call continuing from the returned board). -/
inductive Reachable (s : Nat) : Board → Prop where
  | base : Reachable s (Board.new s)
  | step_start {b b' : Board} {x y : Nat} :
      Reachable s b → (b.start_at x y).1 = Except.ok b' → Reachable s b'
  | step_move {b b' : Board} {d : Direction} :
      Reachable s b → (b.next_move d).1 = Except.ok b' → Reachable s b'

/-- The fixed `(dx, dy)` jump vector of each direction, as the spec describes
it: magnitude 3 on one axis for the orthogonal directions, magnitude 2 on
both axes for the diagonal ones. -/
def dirOffset (d : Direction) : Int × Int :=
  match d with
  | Direction.Down => (0, 3)
  | Direction.DownRight => (2, 2)
  | Direction.Right => (3, 0)
  | Direction.UpRight => (2, -2)
  | Direction.Up => (0, -3)
  | Direction.UpLeft => (-2, -2)
  | Direction.Left => (-3, 0)
  | Direction.DownLeft => (-2, 2)

/-- Modelled from the spec's description of `valid_move`: the candidate
target is the cursor plus the direction's fixed offset, returned exactly
when the board is started, the target lies within `[0, size)` on both
axes, and the target cell's value is 0. -/
def valid_move_spec (b : Board) (d : Direction) : Option (Nat × Nat) :=
  let tx : Int := (b.x : Int) + (dirOffset d).1
  let ty : Int := (b.y : Int) + (dirOffset d).2
  if b.is_started = true ∧ 0 ≤ tx ∧ tx < (b.size : Int) ∧ 0 ≤ ty ∧
      ty < (b.size : Int) ∧ b.value_at tx.toNat ty.toNat = 0 then
    some (tx.toNat, ty.toNat)
  else
    none

/-- The 24-move winning sequence of the `win_5` test. -/
def moveList : List Direction :=
  [Direction.Right, Direction.Down, Direction.Left,
   Direction.UpRight, Direction.DownRight, Direction.Left,
   Direction.UpRight, Direction.Down, Direction.UpLeft,
   Direction.Right, Direction.DownLeft, Direction.UpLeft,
   Direction.UpRight, Direction.Down, Direction.UpLeft,
   Direction.Down, Direction.UpRight, Direction.DownRight,
   Direction.Up, Direction.Left, Direction.Down,
   Direction.UpRight, Direction.UpLeft, Direction.Right]

/-- The 5x5 board right after `start_at(0, 0)`. -/
def winStart : Board :=
  { size := 5
    cells := 25
    values := 1 :: List.replicate 24 0
    x := 0
    y := 0 }

/-- The finished 5x5 board of the `win_5` test, rows listed for y = 0..4. -/
def winFinal : Board :=
  { size := 5
    cells := 25
    values := [1, 24, 14, 2, 25,
               16, 21, 5, 8, 20,
               13, 10, 18, 23, 11,
               4, 7, 15, 3, 6,
               17, 22, 12, 9, 19]
    x := 4
    y := 0 }

/-- Run a list of moves, threading each successfully returned board into the
next call; `none` as soon as one move fails. -/
def runMoves (b : Board) : List Direction → Option Board
  | [] => some b
  | d :: ds =>
    match (b.next_move d).1 with
    | Except.ok b' => runMoves b' ds
    | Except.error _ => none

/-- The `possible_moves().len()` observations of the `win_5` test: one before
each move of the list and one after the last (stopping early if a move
fails). -/
def countsAlong (b : Board) : List Direction → List Nat
  | [] => [b.possible_moves.length]
  | d :: ds =>
    b.possible_moves.length ::
      (match (b.next_move d).1 with
       | Except.ok b' => countsAlong b' ds
       | Except.error _ => [])

/-- The state invariant carried along `Reachable` (`BoardInv`): well-formed dimensions and
cursor, `u8`-ranged values, labels present exactly `1..=score` without
repetition, and the cursor cell holding the score once started. -/
def BoardInv (b : Board) : Prop :=
  b.values.length = b.size * b.size ∧
  5 ≤ b.size ∧
  b.x < b.size ∧
  b.y < b.size ∧
  (∀ v ∈ b.values, v < 256) ∧
  (∀ v : Nat, 0 < v → (v ∈ b.values ↔ v ≤ b.score)) ∧
  (∀ v : Nat, 0 < v → b.values.count v ≤ 1) ∧
  (b.is_started = true → b.value_at b.x b.y = b.score)

/-! Helper lemmas about `List.foldl Nat.max` (the shape of `score`). -/

lemma le_foldl_max (l : List Nat) (a : Nat) : a ≤ l.foldl Nat.max a := by
  induction l generalizing a with
  | nil => exact Nat.le_refl a
  | cons w t ih =>
    exact Nat.le_trans (Nat.le_max_left a w) (ih (Nat.max a w))

lemma mem_le_foldl_max {l : List Nat} {v : Nat} (h : v ∈ l) (a : Nat) :
    v ≤ l.foldl Nat.max a := by
  induction l generalizing a with
  | nil => cases h
  | cons w t ih =>
    rcases List.mem_cons.mp h with rfl | hm
    · exact Nat.le_trans (Nat.le_max_right a v) (le_foldl_max t (Nat.max a v))
    · exact ih hm (Nat.max a w)

lemma foldl_max_le {l : List Nat} {n : Nat} (a : Nat) (ha : a ≤ n)
    (h : ∀ v ∈ l, v ≤ n) : l.foldl Nat.max a ≤ n := by
  induction l generalizing a with
  | nil => exact ha
  | cons w t ih =>
    exact ih (Nat.max a w) (Nat.max_le.mpr ⟨ha, h w (List.mem_cons_self w t)⟩)
      fun v hv => h v (List.mem_cons_of_mem w hv)

lemma foldl_max_replicate_zero (n a : Nat) :
    (List.replicate n 0).foldl Nat.max a = a := by
  induction n generalizing a with
  | zero => rfl
  | succ m ih =>
    rw [List.replicate_succ]
    show (List.replicate m 0).foldl Nat.max (Nat.max a 0) = a
    have hmax : Nat.max a 0 = a := Nat.max_eq_left (Nat.zero_le a)
    rw [hmax]
    exact ih a

/-! Helper lemmas about `List.getD`, `List.set` and `List.count`. -/

lemma getD_replicate_zero (n i : Nat) : (List.replicate n 0).getD i 0 = 0 := by
  induction n generalizing i with
  | zero => rfl
  | succ m ih =>
    rw [List.replicate_succ]
    cases i with
    | zero => rfl
    | succ j => exact ih j

lemma getD_set_self {l : List Nat} {i : Nat} (w : Nat) (h : i < l.length) :
    (l.set i w).getD i 0 = w := by
  rw [List.getD_eq_getElem?_getD, List.getElem?_set_self h]
  rfl

lemma mem_set_of_mem {l : List Nat} {i w u : Nat} (hm : u ∈ l)
    (hne : l.getD i 0 ≠ u) : u ∈ l.set i w := by
  induction l generalizing i with
  | nil => cases hm
  | cons a t ih =>
    cases i with
    | zero =>
      rcases List.mem_cons.mp hm with rfl | hm'
      · exact absurd rfl hne
      · exact List.mem_cons_of_mem w hm'
    | succ j =>
      rcases List.mem_cons.mp hm with rfl | hm'
      · exact List.mem_cons_self u (t.set j w)
      · exact List.mem_cons_of_mem a (ih hm' hne)

lemma count_set_self {l : List Nat} {i w : Nat} (hi : i < l.length)
    (h0 : l.getD i 0 = 0) (hw : w ≠ 0) :
    (l.set i w).count w = l.count w + 1 := by
  induction l generalizing i with
  | nil => cases hi
  | cons a t ih =>
    cases i with
    | zero =>
      have ha : a = 0 := h0
      subst ha
      simp [List.count_cons, hw, Ne.symm hw]
    | succ j =>
      have hj : j < t.length := Nat.lt_of_succ_lt_succ hi
      simp only [List.set, List.count_cons, ih hj h0]
      omega

lemma count_set_other {l : List Nat} {i w u : Nat} (h0 : l.getD i 0 = 0)
    (hu : u ≠ 0) (huw : u ≠ w) : (l.set i w).count u = l.count u := by
  induction l generalizing i with
  | nil => rfl
  | cons a t ih =>
    cases i with
    | zero =>
      have ha : a = 0 := h0
      subst ha
      simp [List.count_cons, hu, huw]
    | succ j =>
      simp only [List.set, List.count_cons, ih h0]

/-! Success characterizations of the mutating operations. -/

lemma set_value_ok {b b' : Board} {x y v : Nat}
    (h : (b.set_value x y v).1 = Except.ok b') :
    x < b.size ∧ y < b.size ∧ 1 ≤ v ∧ b.score % 256 < v ∧
      v ≤ b.cells % 256 ∧ b.value_at x y = 0 ∧
      b' = { b with x := x, y := y,
                    values := b.values.set (y * b.size + x) v } := by
  unfold Board.set_value at h
  split_ifs at h with h1 h2 h3 h4 h5
  all_goals cases h
  refine ⟨by omega, by omega, by omega, by omega, by omega, by omega, rfl⟩

lemma set_value_receiver (b : Board) (x y v : Nat) :
    (b.set_value x y v).2 = b := by
  unfold Board.set_value
  split_ifs <;> rfl

lemma start_at_receiver (b : Board) (x y : Nat) : (b.start_at x y).2 = b :=
  set_value_receiver b x y 1

lemma next_move_receiver (b : Board) (d : Direction) :
    (b.next_move d).2 = b := by
  unfold Board.next_move
  split
  · rfl
  · split
    · exact set_value_receiver b _ _ _
    · rfl

/-! Facts about freshly constructed boards. -/

lemma new_values (s : Nat) :
    (Board.new s).values =
      List.replicate ((Board.new s).size * (Board.new s).size) 0 := rfl

lemma new_x (s : Nat) : (Board.new s).x = 0 := rfl

lemma new_y (s : Nat) : (Board.new s).y = 0 := rfl

lemma new_size_ge (s : Nat) : 5 ≤ (Board.new s).size := by
  simp only [Board.new]
  split_ifs <;> omega

lemma new_score (s : Nat) : (Board.new s).score = 0 := by
  show (Board.new s).values.foldl Nat.max 0 = 0
  rw [new_values]
  exact foldl_max_replicate_zero _ 0

lemma new_started (s : Nat) : (Board.new s).is_started = false := by
  have h0 : (Board.new s).value_at (Board.new s).x (Board.new s).y = 0 := by
    show (Board.new s).values.getD
      ((Board.new s).y * (Board.new s).size + (Board.new s).x) 0 = 0
    rw [new_values]
    exact getD_replicate_zero _ _
  exact decide_eq_false (by rw [h0]; omega)

lemma next_move_ok {b b' : Board} {d : Direction}
    (h : (b.next_move d).1 = Except.ok b') :
    b.is_started = true ∧ ∃ x y, b.valid_move d = some (x, y) ∧
      (b.set_value x y ((b.value_at b.x b.y + 1) % 256)).1 = Except.ok b' := by
  unfold Board.next_move at h
  cases hb : b.is_started with
  | false =>
    rw [hb] at h
    simp at h
  | true =>
    rw [hb] at h
    simp only [Bool.not_true] at h
    rw [if_neg (by simp)] at h
    refine ⟨rfl, ?_⟩
    rcases hv : b.valid_move d with _ | ⟨x, y⟩
    · rw [hv] at h
      simp at h
    · rw [hv] at h
      exact ⟨x, y, rfl, h⟩

/-! Preservation of the board invariant. -/

lemma BoardInv_set_value {b b' : Board} {x y v : Nat} (hb : BoardInv b)
    (hv : v ≤ b.score + 1) (h : (b.set_value x y v).1 = Except.ok b') :
    BoardInv b' := by
  obtain ⟨hlen, hsz, hx, hy, h256, hmem, hcount, hcur⟩ := hb
  obtain ⟨hx', hy', hv1, h3, h4, h5, hb'⟩ := set_value_ok h
  have hslt : b.score < 256 := by
    have hle : b.score ≤ 255 :=
      foldl_max_le 0 (by omega) fun u hu => by have := h256 u hu; omega
    omega
  have hveq : v = b.score + 1 := by
    rw [Nat.mod_eq_of_lt hslt] at h3
    omega
  have hidx : y * b.size + x < b.values.length := by
    rw [hlen]
    have hm1 : y * b.size + b.size = (y + 1) * b.size := by ring
    have hm2 : (y + 1) * b.size ≤ b.size * b.size :=
      Nat.mul_le_mul_right b.size hy'
    omega
  have h5' : b.values.getD (y * b.size + x) 0 = 0 := h5
  have hvlt : v < 256 := by
    have hc : b.cells % 256 < 256 := Nat.mod_lt _ (by omega)
    omega
  have hset_le : ∀ u ∈ b.values.set (y * b.size + x) v, u ≤ v := by
    intro u hu
    rcases List.mem_or_eq_of_mem_set hu with hm | rfl
    · rcases Nat.eq_zero_or_pos u with rfl | hupos
      · omega
      · have := (hmem u hupos).mp hm
        omega
    · omega
  have hsc : (b.values.set (y * b.size + x) v).foldl Nat.max 0 = v := by
    apply Nat.le_antisymm
    · exact foldl_max_le 0 (Nat.zero_le v) hset_le
    · exact mem_le_foldl_max (List.mem_set b.values (y * b.size + x) hidx v) 0
  subst hb'
  refine ⟨?_, hsz, hx', hy', ?_, ?_, ?_, ?_⟩
  · show (b.values.set (y * b.size + x) v).length = b.size * b.size
    rw [List.length_set]
    exact hlen
  · show ∀ u ∈ b.values.set (y * b.size + x) v, u < 256
    intro u hu
    rcases List.mem_or_eq_of_mem_set hu with hm | rfl
    · exact h256 u hm
    · exact hvlt
  · show ∀ u : Nat, 0 < u →
        (u ∈ b.values.set (y * b.size + x) v ↔
          u ≤ (b.values.set (y * b.size + x) v).foldl Nat.max 0)
    intro u hu
    rw [hsc]
    constructor
    · intro humem
      exact hset_le u humem
    · intro hule
      rcases Nat.lt_or_ge u v with hlt | hge
      · have humem : u ∈ b.values := (hmem u hu).mpr (by omega)
        exact mem_set_of_mem humem (by omega)
      · have huv : u = v := by omega
        subst huv
        exact List.mem_set b.values (y * b.size + x) hidx u
  · show ∀ u : Nat, 0 < u → (b.values.set (y * b.size + x) v).count u ≤ 1
    intro u hu
    by_cases huv : u = v
    · subst huv
      have hnm : u ∉ b.values := fun hmm => by
        have := (hmem u hu).mp hmm
        omega
      rw [count_set_self hidx h5' (by omega), List.count_eq_zero_of_not_mem hnm]
    · rw [count_set_other h5' (by omega) huv]
      exact hcount u hu
  · intro _
    show (b.values.set (y * b.size + x) v).getD (y * b.size + x) 0 =
      (b.values.set (y * b.size + x) v).foldl Nat.max 0
    rw [getD_set_self v hidx, hsc]

lemma BoardInv_new (s : Nat) : BoardInv (Board.new s) := by
  have hs5 := new_size_ge s
  refine ⟨?_, hs5, ?_, ?_, ?_, ?_, ?_, ?_⟩
  · rw [new_values, List.length_replicate]
  · rw [new_x]
    omega
  · rw [new_y]
    omega
  · intro u hu
    rw [new_values] at hu
    have := List.eq_of_mem_replicate hu
    omega
  · intro u hu
    rw [new_values, new_score]
    constructor
    · intro hm
      have := List.eq_of_mem_replicate hm
      omega
    · intro hle
      exact absurd hle (by omega)
  · intro u hu
    rw [new_values]
    have hnm : u ∉ List.replicate ((Board.new s).size * (Board.new s).size)
        (0 : Nat) := fun hm => by
      have := List.eq_of_mem_replicate hm
      omega
    rw [List.count_eq_zero_of_not_mem hnm]
    omega
  · intro hst
    rw [new_started s] at hst
    cases hst

lemma BoardInv_reachable {s : Nat} {b : Board} (h : Reachable s b) :
    BoardInv b := by
  induction h with
  | base => exact BoardInv_new s
  | @step_start b b' x y hr hok ih =>
    exact BoardInv_set_value ih (by omega) hok
  | @step_move b b' d hr hok ih =>
    obtain ⟨hst, mx, my, hvm, hset⟩ := next_move_ok hok
    have hcur := ih.2.2.2.2.2.2.2 hst
    refine BoardInv_set_value ih ?_ hset
    rw [hcur]
    exact Nat.mod_le _ _

lemma reachable_of_runMoves {s : Nat} {b b' : Board} {ds : List Direction}
    (hb : Reachable s b) (h : runMoves b ds = some b') : Reachable s b' := by
  induction ds generalizing b with
  | nil =>
    simp only [runMoves] at h
    cases h
    exact hb
  | cons d ds ih =>
    simp only [runMoves] at h
    cases hnm : (b.next_move d).1 with
    | ok b1 =>
      rw [hnm] at h
      exact ih (Reachable.step_move hb hnm) h
    | error e =>
      rw [hnm] at h
      exact Option.noConfusion h

/-! Claim theorems. -/

/-- C1: the claim asserts `start_at` succeeds on a fresh board for every size
in [5,16].  The code disagrees at size 16: `set_value` compares the value
against `self.cells as u8`, and a 16x16 board's `cells = 256` truncates to
0, so check 4 rejects even value 1 — with a message asserting 1 is larger
than 256.  Size 15 (and every smaller size) behaves as claimed.  The
failure contradicts the constructor's own clamp to 16 and the error message
itself, so it is recorded as a code bug; this theorem evaluates the code at
the failing input and at the last working size. -/
theorem start_at_new16_fails :
    ((Board.new 16).start_at 0 0).1 =
      Except.error (BoardError.valueTooLarge 0 0 1 256) ∧
    ((Board.new 15).start_at 0 0).1 =
      Except.ok { Board.new 15 with
        values := (Board.new 15).values.set 0 1, x := 0, y := 0 } := by
  constructor
  · decide
  · decide

/-- C2: every board reachable by successful `start_at`/`next_move` calls
holds each label in `1..=cells` in at most one cell, its nonzero labels are
exactly the contiguous range `1..=score`, and once started the cursor cell
equals the score. -/
theorem reachable_label_invariants (s : Nat) (b : Board)
    (h : Reachable s b) :
    (∀ v : Nat, 1 ≤ v → v ≤ b.cells → b.values.count v ≤ 1) ∧
    (∀ v : Nat, 0 < v → (v ∈ b.values ↔ 1 ≤ v ∧ v ≤ b.score)) ∧
    (b.is_started = true → b.value_at b.x b.y = b.score) := by
  obtain ⟨hlen, hsz, hx, hy, h256, hmem, hcount, hcur⟩ := BoardInv_reachable h
  refine ⟨fun v hv _ => hcount v hv, fun v hv => ?_, hcur⟩
  rw [hmem v hv]
  omega

/-- C2 witness: the invariants instantiated on the reachable 5x5 board
obtained by `start_at(0,0)`. -/
theorem reachable_label_invariants_witness :
    winStart.values.count 1 ≤ 1 ∧
    ((2 : Nat) ∈ winStart.values ↔ 1 ≤ 2 ∧ 2 ≤ winStart.score) ∧
    winStart.value_at winStart.x winStart.y = winStart.score := by
  have hr : Reachable 5 winStart :=
    Reachable.step_start Reachable.base
      (show ((Board.new 5).start_at 0 0).1 = Except.ok winStart by decide)
  exact ⟨(reachable_label_invariants 5 winStart hr).1 1 (by decide) (by decide),
    (reachable_label_invariants 5 winStart hr).2.1 2 (by decide),
    (reachable_label_invariants 5 winStart hr).2.2 (by decide)⟩

/-- C3 is false as stated: the finished `win_5` board is reachable and is
simultaneously blocked and won, so `is_blocked()` being true does not make
`is_won()` false. -/
theorem blocked_and_won_cex :
    Reachable 5 winFinal ∧ winFinal.is_blocked = true ∧
      winFinal.is_won = true := by
  have h1 : ((Board.new 5).start_at 0 0).1 = Except.ok winStart := by decide
  have h2 : runMoves winStart moveList = some winFinal := by decide
  exact ⟨reachable_of_runMoves (Reachable.step_start Reachable.base h1) h2,
    by decide, by decide⟩

/-- C3 (amended): for every board — in particular every reachable one —
`is_blocked` implies `is_started` and an empty `possible_moves`; the
claim's third conjunct (`is_won()` false) is dropped, since a won board is
also blocked. -/
theorem blocked_implies_started_no_moves (b : Board)
    (h : b.is_blocked = true) :
    b.is_started = true ∧ b.possible_moves = [] := by
  have h' := h
  simp only [Board.is_blocked, Bool.and_eq_true, beq_iff_eq] at h'
  exact ⟨h'.1, List.length_eq_zero.mp h'.2⟩

/-- C3 witness: the amended implication applied to the blocked final
`win_5` board. -/
theorem blocked_implies_started_no_moves_witness :
    winFinal.is_started = true ∧ winFinal.possible_moves = [] :=
  blocked_implies_started_no_moves winFinal (by decide)

/-- C4 is false as stated at size 16: with value 1 at (0,0) on
`Board::new(16)` all five checks as the claim words them pass (coordinates
in range, value at least 1, value above the score, value at most `cells`,
cell empty), yet `set_value` answers ValueTooLarge instead of writing,
because the code's check 4 compares with `cells as u8 = 0`. -/
theorem set_value_check_order_cex :
    (0 < (Board.new 16).size ∧ (1 : Nat) ≥ 1 ∧ (Board.new 16).score < 1 ∧
      (1 : Nat) ≤ (Board.new 16).cells ∧
      (Board.new 16).value_at 0 0 = 0) ∧
    ((Board.new 16).set_value 0 0 1).1 =
      Except.error (BoardError.valueTooLarge 0 0 1 256) := by
  constructor
  · refine ⟨by decide, by decide, by decide, by decide, by decide⟩
  · decide

/-- C4 (amended): the five checks of `set_value` fire in exactly the claimed
order with the claimed conditions and errors, except that check 4 compares
the value against `cells` truncated to `u8` (`cells % 256`); only when all
five pass is the value written at `(x, y)` and the cursor moved there.  The
hypothesis `hv` is the `u8` representation invariant of the values
vector. -/
theorem set_value_check_order (b : Board) (x y v : Nat)
    (hv : ∀ u ∈ b.values, u < 256) :
    ((b.size ≤ x ∨ b.size ≤ y) →
      (b.set_value x y v).1 =
        Except.error (BoardError.outOfRange x y b.size)) ∧
    (x < b.size → y < b.size → v < 1 →
      (b.set_value x y v).1 = Except.error (BoardError.cannotClear x y)) ∧
    (x < b.size → y < b.size → 1 ≤ v → v ≤ b.score →
      (b.set_value x y v).1 = Except.error (BoardError.valueUsed x y v)) ∧
    (x < b.size → y < b.size → b.score < v → b.cells % 256 < v →
      (b.set_value x y v).1 =
        Except.error (BoardError.valueTooLarge x y v b.cells)) ∧
    (x < b.size → y < b.size → b.score < v → v ≤ b.cells % 256 →
      b.value_at x y ≠ 0 →
      (b.set_value x y v).1 = Except.error (BoardError.cellOccupied x y)) ∧
    (x < b.size → y < b.size → b.score < v → v ≤ b.cells % 256 →
      b.value_at x y = 0 →
      (b.set_value x y v).1 =
        Except.ok { b with x := x, y := y,
                           values := b.values.set (y * b.size + x) v }) := by
  have hslt : b.score < 256 := by
    have hle : b.score ≤ 255 :=
      foldl_max_le 0 (by omega) fun u hu => by have := hv u hu; omega
    omega
  refine ⟨?_, ?_, ?_, ?_, ?_, ?_⟩
  · intro h1
    unfold Board.set_value
    rw [if_pos (by omega)]
  · intro hx hy h2
    unfold Board.set_value
    rw [if_neg (by omega), if_pos (by omega)]
  · intro hx hy h2 h3
    unfold Board.set_value
    rw [if_neg (by omega), if_neg (by omega), if_pos (by omega)]
  · intro hx hy h3 h4
    unfold Board.set_value
    rw [if_neg (by omega), if_neg (by omega), if_neg (by omega),
      if_pos (by omega)]
  · intro hx hy h3 h4 h5
    unfold Board.set_value
    rw [if_neg (by omega), if_neg (by omega), if_neg (by omega),
      if_neg (by omega), if_pos h5]
  · intro hx hy h3 h4 h5
    unfold Board.set_value
    rw [if_neg (by omega), if_neg (by omega), if_neg (by omega),
      if_neg (by omega), if_neg (fun hc => hc h5)]

/-- C4 witness: check 1 firing on a 5x5 board at out-of-range coordinates. -/
theorem set_value_check_order_witness :
    ((Board.new 5).set_value 9 9 1).1 =
      Except.error (BoardError.outOfRange 9 9 5) :=
  (set_value_check_order (Board.new 5) 9 9 1 (by decide)).1 (by decide)

/-- C5: whenever `start_at` or `next_move` returns an error, the receiver —
the state of `self` after the call, the second pair component — is exactly
the original board: the failed operation has no observable side effect. -/
theorem error_leaves_board_unchanged (b : Board) (x y : Nat) (d : Direction)
    (e e' : BoardError) :
    ((b.start_at x y).1 = Except.error e → (b.start_at x y).2 = b) ∧
    ((b.next_move d).1 = Except.error e' → (b.next_move d).2 = b) :=
  ⟨fun _ => start_at_receiver b x y, fun _ => next_move_receiver b d⟩

/-- C5 witness: an out-of-range `start_at` and a not-started `next_move`
both leave a fresh 5x5 board unchanged. -/
theorem error_leaves_board_unchanged_witness :
    ((Board.new 5).start_at 9 9).2 = Board.new 5 ∧
    ((Board.new 5).next_move Direction.Down).2 = Board.new 5 :=
  ⟨(error_leaves_board_unchanged (Board.new 5) 9 9 Direction.Down
      (BoardError.outOfRange 9 9 5) BoardError.notStarted).1 (by decide),
   (error_leaves_board_unchanged (Board.new 5) 9 9 Direction.Down
      (BoardError.outOfRange 9 9 5) BoardError.notStarted).2 (by decide)⟩

/-- C6: `valid_move` returns exactly the cursor-plus-offset target — offsets
of magnitude 3 on one axis for the orthogonal directions and 2 on both axes
for the diagonals — precisely when the board is started, the target lies in
`[0, size)` on both axes, and the target cell holds 0; otherwise it returns
none.  As a pure function of the board it mutates nothing. -/
theorem valid_move_eq_spec (b : Board) (d : Direction) :
    b.valid_move d = valid_move_spec b d := by
  cases d <;>
    simp only [Board.valid_move, valid_move_spec, dirOffset, HV_OFFSET,
      DIAG_OFFSET, ge_iff_le, add_zero, ← sub_eq_add_neg] <;>
    split_ifs <;> first | rfl | tauto

/-- C7: the `win_5` scenario: `start_at(0,0)` on a fresh 5x5 board succeeds,
the 24 listed moves all succeed and end in exactly the literal grid
`winFinal` (cursor on label 25), the possible-move counts observed before
each move and after the last are as listed, and the final board is won and
blocked with score 25. -/
theorem win5_full_game :
    ((Board.new 5).start_at 0 0).1 = Except.ok winStart ∧
    runMoves winStart moveList = some winFinal ∧
    countsAlong winStart moveList =
      [3, 2, 2, 1, 2, 2, 2, 2, 2, 1, 2, 1, 2, 1, 2, 1, 1, 2, 2, 1, 1, 1,
       1, 1, 0] ∧
    winFinal.is_won = true ∧ winFinal.score = 25 ∧
    winFinal.is_blocked = true := by
  exact ⟨by decide, by decide, by decide, by decide, by decide, by decide⟩

/-- C8: a fresh board of any size in [5,16] has `cells = s*s`, score 0, is
not started, not won, and offers no moves; sizes below 5 produce the same
board as size 5, sizes above 16 the same board as size 16. -/
theorem new_board_properties :
    (∀ s : Nat, 5 ≤ s → s ≤ 16 →
      (Board.new s).cells = s * s ∧ (Board.new s).score = 0 ∧
      (Board.new s).is_started = false ∧ (Board.new s).is_won = false ∧
      (Board.new s).possible_moves = []) ∧
    (∀ s : Nat, s < 5 → Board.new s = Board.new 5) ∧
    (∀ s : Nat, 16 < s → Board.new s = Board.new 16) := by
  refine ⟨?_, ?_, ?_⟩
  · intro s h5 h16
    interval_cases s <;>
      exact ⟨by decide, by decide, by decide, by decide, by decide⟩
  · intro s h
    interval_cases s <;> decide
  · intro s h
    have h5 : ¬ s < 5 := by omega
    simp only [Board.new, gt_iff_lt, if_neg h5, if_pos h]
    decide

/-- C8 witness: the construction properties at sizes 10, 3 and 20. -/
theorem new_board_properties_witness :
    (Board.new 10).cells = 10 * 10 ∧ Board.new 3 = Board.new 5 ∧
      Board.new 20 = Board.new 16 :=
  ⟨(new_board_properties.1 10 (by decide) (by decide)).1,
   new_board_properties.2.1 3 (by decide),
   new_board_properties.2.2 20 (by decide)⟩

/-- C9: `set_value` — and with it `start_at` and `next_move` — never mutates
the board it is invoked on, success or failure: the receiver after the call
(second pair component) is the original board, the successful result being
a freshly written clone. -/
theorem operations_never_mutate_receiver (b : Board) (x y v : Nat)
    (d : Direction) :
    (b.set_value x y v).2 = b ∧ (b.start_at x y).2 = b ∧
      (b.next_move d).2 = b :=
  ⟨set_value_receiver b x y v, start_at_receiver b x y,
   next_move_receiver b d⟩

/-- C10: `value_at` reads the flat index `y*size + x` of the values vector:
the read aborts exactly when that index reaches `size*size` (= the vector
length), and otherwise yields the value stored at the flat index — so for
`x ≥ size` with the flat index still in range it silently reads the
distinct cell `(x - size, y + 1)` instead of signalling the bad `x`. -/
theorem value_at_flat_index (b : Board) (x y : Nat)
    (hlen : b.values.length = b.size * b.size) :
    (b.value_at? x y = none ↔ b.size * b.size ≤ y * b.size + x) ∧
    (b.value_at? x y = some (b.value_at x y) ↔
      y * b.size + x < b.size * b.size) ∧
    (b.size ≤ x →
      b.value_at? x y = b.value_at? (x - b.size) (y + 1) ∧
        (x - b.size, y + 1) ≠ (x, y)) := by
  refine ⟨?_, ?_, ?_⟩
  · simp only [Board.value_at?]
    rw [List.get?_eq_none, hlen]
  · constructor
    · intro h
      by_contra hge
      push_neg at hge
      have hnone : b.value_at? x y = none := by
        simp only [Board.value_at?]
        exact List.get?_eq_none.mpr (by omega)
      rw [hnone] at h
      cases h
    · intro hlt
      have hex : ∃ w, b.values.get? (y * b.size + x) = some w := by
        cases hg : b.values.get? (y * b.size + x) with
        | none => exact absurd (List.get?_eq_none.mp hg) (by omega)
        | some w => exact ⟨w, rfl⟩
      obtain ⟨w, hw⟩ := hex
      simp only [Board.value_at?, Board.value_at]
      rw [List.getD_eq_getElem?_getD, ← List.get?_eq_getElem?, hw]
      rfl
  · intro hx
    constructor
    · have hidx : y * b.size + x = (y + 1) * b.size + (x - b.size) := by
        have hm1 : (y + 1) * b.size = y * b.size + b.size := by ring
        omega
      simp only [Board.value_at?]
      rw [hidx]
    · intro hp
      rw [Prod.mk.injEq] at hp
      omega

/-- C10 witness: on a fresh 5x5 board the read at (6, 0) does not abort and
equals the read at the distinct cell (1, 1). -/
theorem value_at_flat_index_witness :
    (Board.new 5).value_at? 6 0 =
      (Board.new 5).value_at? (6 - (Board.new 5).size) (0 + 1) ∧
    (6 - (Board.new 5).size, 0 + 1) ≠ (6, 0) :=
  (value_at_flat_index (Board.new 5) 6 0 (by decide)).2.2 (by decide)
